import Mathlib

/-!
Verification of the note-links ingestion-and-enrichment pipeline.

This file gives a shallow embedding, in Lean 4, of the core of the
`link_extractor` Python package: the markdown link parser
(`extraction/parser.py`), the SQLite-backed store (`storage/database.py`),
the pipeline controller (`main.py`), the rate-limited document fetcher
(`fetching/fetcher.py`), the HTML content extractor
(`fetching/content.py`) and the LLM tag-response parser
(`tagging/llm_tagger.py`).  Pure functions of the source are translated
into Lean functions; the SQLite store becomes a record of lists with the
relevant SQL statements translated one by one; the network and the LLM
are oracles passed in as parameters.  Python `re` patterns used by the
parser are implemented as explicit character-list scanners with the same
leftmost-match semantics.

Theorems named `c1_...` through `c10_...` settle the frozen claims about
the specification of this repository.
-/

namespace NoteLinks

/-! ## Basic data model (storage/models.py) -/

/-- Fetch status enumeration, `FetchStatus` in `storage/models.py`. -/
inductive FetchStatus where
  | not_fetched
  | success
  | failed
  | timeout
  | skipped
deriving DecidableEq, Repr

/-- Tag categories, `TagCategory` in `storage/models.py`. -/
inductive TagCategory where
  | programming_language
  | technical_topic
  | culture
deriving DecidableEq, Repr

/-- Calendar date (`datetime.date`); only construction and ordering by
(year, month, day) are used by the pipeline. -/
structure Date where
  year : Nat
  month : Nat
  day : Nat
deriving DecidableEq, Repr

/-- Ordering key for a date; matches ISO-string ordering for valid dates. -/
def Date.key (d : Date) : Nat :=
  d.year * 10000 + d.month * 100 + d.day

/-- Raw link extracted from markdown, `ExtractedLink` in `storage/models.py`. -/
structure ExtractedLink where
  url : String
  source_date : Date
  source_file : String
  description : Option String := none
  title : Option String := none
  indent_level : Nat := 0
  parent_url : Option String := none
deriving DecidableEq, Repr

/-- A categorization tag, `Tag` in `storage/models.py` (the optional row id
lives in the store, not on the value). -/
structure Tag where
  name : String
  category : TagCategory
deriving DecidableEq, Repr

/-! ## Character-level helpers

Python `str` operations used by the parser, over `List Char`.  `\s` is the
ASCII whitespace class of Python's `re` module. -/

/-- Python `\s` (ASCII): space, tab, newline, carriage return, vertical tab,
form feed. -/
def is_py_space (c : Char) : Bool :=
  c == ' ' || c == '\t' || c == '\n' || c == '\r' ||
    c == Char.ofNat 11 || c == Char.ofNat 12

/-- Python `str.strip()` with no argument: remove whitespace on both ends. -/
def py_strip (l : List Char) : List Char :=
  ((l.dropWhile is_py_space).reverse.dropWhile is_py_space).reverse

/-- Python `str.strip(" -")`: remove spaces and hyphens on both ends. -/
def strip_space_dash (l : List Char) : List Char :=
  let p := fun c => c == ' ' || c == '-'
  ((l.dropWhile p).reverse.dropWhile p).reverse

/-- ASCII lower-casing of a string (Python `str.lower` on ASCII text). -/
def lower_str (s : String) : String :=
  String.mk (s.data.map Char.toLower)

/-- Does `l` start with `pat`? -/
def starts_with_list : List Char → List Char → Bool
  | _, [] => true
  | [], _ :: _ => false
  | a :: as, b :: bs => a == b && starts_with_list as bs

/-- Does `l` contain `pat` as a contiguous substring (Python `in`)? -/
def contains_sub_list (l pat : List Char) : Bool :=
  match l with
  | [] => pat.isEmpty
  | _ :: rest => starts_with_list l pat || contains_sub_list rest pat

/-- Does `l` end with `pat` (Python `str.endswith`)? -/
def ends_with_list (l pat : List Char) : Bool :=
  starts_with_list l.reverse pat.reverse

/-- Split a character list on newline characters (Python `str.split("\n")`). -/
def split_lines (l : List Char) : List (List Char) :=
  l.foldr
    (fun c acc =>
      match acc with
      | cur :: rest => if c == '\n' then [] :: cur :: rest else (c :: cur) :: rest
      | [] => [[c]])
    [[]]

/-! ## Regex scanners for the parser (extraction/parser.py)

The parser uses three `re` patterns: `MARKDOWN_LINK`, `BARE_URL` and
`LIST_ITEM`.  Each is implemented as a deterministic scanner with the
same leftmost-match semantics; the determinism arguments (negated
character classes leave no backtracking choice) are spelled out where a
pattern is implemented. -/

/-- Match `https?://` at the head of `l`; on success return the matched
scheme characters and the rest.  The optional `s` is greedy, exactly as in
the regex (the two alternatives are mutually exclusive anyway). -/
def try_scheme : List Char → Option (List Char × List Char)
  | 'h' :: 't' :: 't' :: 'p' :: 's' :: ':' :: '/' :: '/' :: r =>
      some (['h', 't', 't', 'p', 's', ':', '/', '/'], r)
  | 'h' :: 't' :: 't' :: 'p' :: ':' :: '/' :: '/' :: r =>
      some (['h', 't', 't', 'p', ':', '/', '/'], r)
  | _ => none

/-- Try to match `MARKDOWN_LINK = \[([^\]]+)\]\((https?://[^\)]+)\)` at the
head of the list.  Returns `(title, url, rest-after-match)`.  Both negated
classes are deterministic: `[^\]]+` must stop exactly at the first `]`, and
`[^\)]+` exactly at the first `)`. -/
def try_md_at (l : List Char) : Option (List Char × List Char × List Char) :=
  match l with
  | '[' :: r =>
    let title := r.takeWhile (fun c => c != ']')
    let r1 := r.dropWhile (fun c => c != ']')
    if title.isEmpty then none
    else
      match r1 with
      | ']' :: '(' :: r2 =>
        match try_scheme r2 with
        | some (scheme, r3) =>
          let body := r3.takeWhile (fun c => c != ')')
          let r4 := r3.dropWhile (fun c => c != ')')
          if body.isEmpty then none
          else
            match r4 with
            | ')' :: r5 => some (title, scheme ++ body, r5)
            | _ => none
        | none => none
      | _ => none
  | _ => none

/-- Leftmost search for `MARKDOWN_LINK` (`re.search`): try every start
position left to right. -/
def md_search : List Char → Option (List Char × List Char)
  | [] => none
  | c :: rest =>
    match try_md_at (c :: rest) with
    | some (t, u, _) => some (t, u)
    | none => md_search rest

/-- Worker for `md_sub` with explicit fuel.  One unit of fuel is spent per
scan position; since every step consumes at least one input character,
`l.length` units always suffice. -/
def md_sub_go : Nat → List Char → List Char
  | 0, l => l
  | _ + 1, [] => []
  | fuel + 1, c :: rest =>
    match try_md_at (c :: rest) with
    | some (_, _, restAfter) => md_sub_go fuel restAfter
    | none => c :: md_sub_go fuel rest

/-- `MARKDOWN_LINK.sub("", content)`: delete every non-overlapping leftmost
match. -/
def md_sub (l : List Char) : List Char :=
  md_sub_go l.length l

/-- Try to match `BARE_URL = (https?://[^\s\)]+)` at the head of the list;
returns the matched URL. -/
def try_bare_at (l : List Char) : Option (List Char) :=
  match try_scheme l with
  | some (scheme, r) =>
    let body := r.takeWhile (fun c => !is_py_space c && c != ')')
    if body.isEmpty then none else some (scheme ++ body)
  | none => none

/-- Leftmost search for `BARE_URL`, also returning the text before the match
(`content[: url_match.start()]`).  The accumulator holds the scanned
characters in reverse. -/
def bare_search : List Char → List Char → Option (List Char × List Char)
  | _, [] => none
  | acc, c :: rest =>
    match try_bare_at (c :: rest) with
    | some url => some (acc.reverse, url)
    | none => bare_search (c :: acc) rest

/-- Match `LIST_ITEM = ^(\s*)-\s+(.+)$` against a whole line; returns
`(group 1, group 2)`, the indent and the item text.  `\s*` is the maximal
whitespace prefix; after the `-`, the greedy `\s+` takes the maximal
whitespace run and `(.+)` the non-empty remainder — when the remainder is
empty the regex backtracks one step, so group 2 is the last whitespace
character of a run of length at least two. -/
def match_list_item (line : List Char) : Option (List Char × List Char) :=
  let ws := line.takeWhile is_py_space
  match line.dropWhile is_py_space with
  | '-' :: t =>
    let run := t.takeWhile is_py_space
    let after := t.dropWhile is_py_space
    if run.isEmpty then none
    else if after.isEmpty then
      match run.reverse with
      | c :: _ :: _ => some (ws, [c])
      | _ => none
    else some (ws, after)
  | _ => none

/-- Indentation depth of group 1: each tab counts one level, plus one level
per four remaining (non-tab) characters
(`indent_str.count("\t") + len(indent_str.replace("\t", "")) // 4`). -/
def indent_level_of (ws : List Char) : Nat :=
  (ws.filter (fun c => c == '\t')).length +
    (ws.filter (fun c => c != '\t')).length / 4

/-! ## The markdown link parser (extraction/parser.py) -/

/-- `MarkdownLinkParser._parse_link_content`: try the markdown-link form
first, then the bare-URL form; `None` when the line holds no URL. -/
def parse_link_content (content : List Char) (d : Date) (f : String)
    (level : Nat) (parent : Option String) : Option ExtractedLink :=
  match md_search content with
  | some (title, url) =>
    let desc := strip_space_dash (md_sub content)
    some
      { url := String.mk url
        title := some (String.mk title)
        description := if desc.isEmpty then none else some (String.mk desc)
        source_date := d
        source_file := f
        indent_level := level
        parent_url := parent }
  | none =>
    match bare_search [] content with
    | some (before, url) =>
      let desc := strip_space_dash before
      some
        { url := String.mk url
          title := none
          description := if desc.isEmpty then none else some (String.mk desc)
          source_date := d
          source_file := f
          indent_level := level
          parent_url := parent }
    | none => none

/-- Pop every stack entry whose indent level is `≥ level`
(the `while parent_stack and parent_stack[-1][0] >= indent_level: pop()`
loop; the top of the Python list is the head of ours). -/
def pop_ge (stack : List (Nat × String)) (level : Nat) : List (Nat × String) :=
  stack.dropWhile (fun p => level ≤ p.1)

/-- One iteration of the `_parse_links_section` loop on one line: returns the
link emitted by the line (if any) and the updated parent stack.  Note the
stack is popped even when the bullet line carries no parseable URL, exactly
as in the source (the pop happens before `_parse_link_content`). -/
def parse_step (d : Date) (f : String) (stack : List (Nat × String))
    (line : List Char) : Option ExtractedLink × List (Nat × String) :=
  match match_list_item line with
  | none => (none, stack)
  | some (ws, g2) =>
    let level := indent_level_of ws
    let stack1 := pop_ge stack level
    let parent := stack1.head?.map (fun p => p.2)
    match parse_link_content (py_strip g2) d f level parent with
    | some link => (some link, (level, link.url) :: stack1)
    | none => (none, stack1)

/-- The `_parse_links_section` loop over the remaining lines, carrying the
parent stack; emitted links are returned in document order. -/
def parse_loop (d : Date) (f : String) :
    List (List Char) → List (Nat × String) → List ExtractedLink
  | [], _ => []
  | line :: rest, stack =>
    match parse_step d f stack line with
    | (some link, st) => link :: parse_loop d f rest st
    | (none, st) => parse_loop d f rest st

/-- `MarkdownLinkParser._parse_links_section`: split the section text on
newlines and run the stack loop with an empty stack. -/
def parse_links_section (sec : String) (d : Date) (f : String) :
    List ExtractedLink :=
  parse_loop d f (split_lines sec.data) []

/-! ## URL helpers (urllib.parse.urlparse, as used by the source)

The source only ever reads `.netloc` and `.path` of `urlparse(url)` on
`http(s)` URLs; this is that fragment of `urlparse`: the netloc is what
follows `://` up to the first `/`, `?` or `#`, and the path what follows
the netloc up to the first `?` or `#`. -/

/-- Drop everything through the first `://`; `none` when absent. -/
def after_scheme : List Char → Option (List Char)
  | [] => none
  | ':' :: '/' :: '/' :: r => some r
  | _ :: r => after_scheme r

/-- Model of `urlparse(url).netloc` for `http(s)` URLs. -/
def url_netloc (url : String) : String :=
  match after_scheme url.data with
  | some r =>
      String.mk (r.takeWhile (fun c => c != '/' && c != '?' && c != '#'))
  | none => ""

/-- Model of `urlparse(url).path` for `http(s)` URLs. -/
def url_path (url : String) : String :=
  match after_scheme url.data with
  | some r =>
      String.mk
        ((r.dropWhile (fun c => c != '/' && c != '?' && c != '#')).takeWhile
          (fun c => c != '?' && c != '#'))
  | none => String.mk (url.data.takeWhile (fun c => c != '?' && c != '#'))

/-! ## The store (storage/database.py)

The SQLite database is modelled as lists of rows; each method of
`Database` that the pipeline uses is translated statement by statement.
The `links.url` column carries a `UNIQUE` constraint in `SCHEMA_SQL`; the
pipeline only ever inserts through the `link_exists` guard in `main.py`,
which is modelled by `try_insert_link`.  Wall-clock columns
(`fetched_at`, `created_at`, ...) are not modelled; note that
`Database._row_to_link` does not read them back either. -/

/-- Durable link record, one row of the `links` table
(`LinkRecord` in `storage/models.py`). -/
structure LinkRecord where
  id : Nat
  url : String
  domain : String
  source_date : Date
  source_file : String
  title : Option String := none
  description : Option String := none
  parent_url : Option String := none
  indent_level : Nat := 0
  page_title : Option String := none
  page_content : Option String := none
  fetch_status : FetchStatus := .not_fetched
  fetch_error : Option String := none
  summary : Option String := none
  summarizer_model : Option String := none
deriving DecidableEq, Repr

/-- One row of the `tags` table. -/
structure TagRow where
  id : Nat
  name : String
  category : String
deriving DecidableEq, Repr

/-- One row of the `link_tags` association table. -/
structure LinkTagRow where
  link_id : Nat
  tag_id : Nat
  confidence : Rat
  source : String
deriving DecidableEq, Repr

/-- One row of the `processing_log` table (its autoincrement id and
timestamp are not read anywhere). -/
structure LogRow where
  source_file : String
  file_hash : String
deriving DecidableEq, Repr

/-- The whole store: the four tables plus the autoincrement counters. -/
structure Db where
  links : List LinkRecord := []
  next_link_id : Nat := 1
  tags : List TagRow := []
  next_tag_id : Nat := 1
  link_tags : List LinkTagRow := []
  processing_log : List LogRow := []
deriving DecidableEq, Repr

/-- The string value of a `TagCategory` (the `.value` written to the
`tags.category` column). -/
def TagCategory.value : TagCategory → String
  | .programming_language => "programming_language"
  | .technical_topic => "technical_topic"
  | .culture => "culture"

/-- `Database.link_exists`: `SELECT 1 FROM links WHERE url = ?`. -/
def link_exists (db : Db) (url : String) : Bool :=
  db.links.any (fun r => r.url == url)

/-- The fresh row `Database.insert_link` builds: `fetch_status =
not_fetched`, the domain derived from the URL, the next autoincrement
id. -/
def new_record (db : Db) (link : ExtractedLink) : LinkRecord :=
  { id := db.next_link_id
    url := link.url
    domain := url_netloc link.url
    source_date := link.source_date
    source_file := link.source_file
    title := link.title
    description := link.description
    parent_url := link.parent_url
    indent_level := link.indent_level
    fetch_status := .not_fetched }

/-- `Database.insert_link`: append the fresh row and return its id.  The
`UNIQUE` constraint on `url` is not re-checked here — in the source a
duplicate insert raises `sqlite3.IntegrityError`, and the pipeline
prevents it with the `link_exists` guard (`try_insert_link`). -/
def insert_link (db : Db) (link : ExtractedLink) : Db × Nat :=
  ({ db with
      links := db.links ++ [new_record db link]
      next_link_id := db.next_link_id + 1 },
    db.next_link_id)

/-- The guarded insert the pipeline performs
(`if not self.db.link_exists(link.url): self.db.insert_link(link)`,
`main.py`). -/
def try_insert_link (db : Db) (link : ExtractedLink) : Db :=
  if link_exists db link.url then db else (insert_link db link).1

/-- `Database.update_fetch_result`: `UPDATE links SET fetch_status = ?,
page_content = ?, page_title = ?, fetch_error = ? ... WHERE id = ?`. -/
def update_fetch_result (db : Db) (link_id : Nat) (status : FetchStatus)
    (content page_title error : Option String) : Db :=
  { db with
    links := db.links.map fun r =>
      if r.id == link_id then
        { r with
          fetch_status := status
          page_content := content
          page_title := page_title
          fetch_error := error }
      else r }

/-- `Database.update_summary`: `UPDATE links SET summary = ?,
summarizer_model = ? ... WHERE id = ?`. -/
def update_summary (db : Db) (link_id : Nat) (summary model : String) : Db :=
  { db with
    links := db.links.map fun r =>
      if r.id == link_id then
        { r with summary := some summary, summarizer_model := some model }
      else r }

/-- The `INSERT OR IGNORE INTO tags` statement of `Database.add_tag`. -/
def ensure_tag (db : Db) (tag : Tag) : Db :=
  if db.tags.any (fun t => t.name == tag.name) then db
  else
    { db with
      tags := db.tags ++ [⟨db.next_tag_id, tag.name, tag.category.value⟩]
      next_tag_id := db.next_tag_id + 1 }

/-- `Database.add_tag`: `INSERT OR IGNORE` into the tag catalog, look the tag
id up by name, then `INSERT OR REPLACE` the `(link_id, tag_id)` association
row. -/
def add_tag (db : Db) (link_id : Nat) (tag : Tag) (confidence : Rat)
    (source : String) : Db :=
  let db1 := ensure_tag db tag
  match db1.tags.find? (fun t => t.name == tag.name) with
  | some trow =>
    { db1 with
      link_tags :=
        db1.link_tags.filter
          (fun lt => !(lt.link_id == link_id && lt.tag_id == trow.id)) ++
          [⟨link_id, trow.id, confidence, source⟩] }
  | none => db1

/-- `Database.clear_tags_for_link`. -/
def clear_tags_for_link (db : Db) (link_id : Nat) : Db :=
  { db with link_tags := db.link_tags.filter (fun lt => lt.link_id != link_id) }

/-- `Database.clear_all_tags`. -/
def clear_all_tags (db : Db) : Db :=
  { db with link_tags := [] }

/-- `Database.file_needs_processing`: unknown file, or recorded hash differs
from the current one. -/
def file_needs_processing (db : Db) (file_path file_hash : String) : Bool :=
  match db.processing_log.find? (fun r => r.source_file == file_path) with
  | none => true
  | some r => r.file_hash != file_hash

/-- `Database.mark_file_processed`: `INSERT OR REPLACE` keyed on the unique
`source_file` column. -/
def mark_file_processed (db : Db) (file_path file_hash : String) : Db :=
  { db with
    processing_log :=
      db.processing_log.filter (fun r => r.source_file != file_path) ++
        [⟨file_path, file_hash⟩] }

/-- `ORDER BY source_date DESC` (SQLite leaves ties unspecified; insertion
sort gives one admissible, stable order). -/
def sort_by_date_desc (l : List LinkRecord) : List LinkRecord :=
  l.insertionSort fun a b => b.source_date.key ≤ a.source_date.key

/-- `Database.get_unfetched_links`:
`WHERE fetch_status = 'not_fetched' ORDER BY source_date DESC LIMIT ?`. -/
def get_unfetched_links (db : Db) (limit : Nat) : List LinkRecord :=
  (sort_by_date_desc
    (db.links.filter (fun r => r.fetch_status == .not_fetched))).take limit

/-- The `WHERE` predicate of `Database.get_unsummarized_links`:
`fetch_status != 'not_fetched' AND summary IS NULL`. -/
def summarize_eligible (r : LinkRecord) : Bool :=
  r.fetch_status != .not_fetched && r.summary == none

/-- `Database.get_unsummarized_links`:
`WHERE fetch_status != 'not_fetched' AND summary IS NULL
ORDER BY source_date DESC LIMIT ?`. -/
def get_unsummarized_links (db : Db) (limit : Nat) : List LinkRecord :=
  (sort_by_date_desc (db.links.filter summarize_eligible)).take limit

/-- `Database.get_untagged_links`: `WHERE fetch_status != 'not_fetched' AND
id NOT IN (SELECT DISTINCT link_id FROM link_tags) ORDER BY source_date DESC
LIMIT ?` (the source applies `LIMIT` only when one is given; the pipeline
always passes its batch size). -/
def get_untagged_links (db : Db) (limit : Nat) : List LinkRecord :=
  (sort_by_date_desc
    (db.links.filter fun r =>
      r.fetch_status != .not_fetched &&
        !db.link_tags.any (fun lt => lt.link_id == r.id))).take limit

/-! ## The document fetcher (fetching/fetcher.py)

The network is the only effect of `RateLimitedFetcher.fetch`; it is
modelled by an `HttpOutcome` argument describing what the single
`session.get` of the function would observe: a response (status,
content-type header, decoded body), a timeout, or a transport error.  The
two skip rules fire before the request, so on those paths the outcome
argument is never inspected.  The `try/except` net around the request
means every path returns a `FetchResult` — the Lean function is total, so
"never raises past this boundary" holds by construction. -/

/-- What the HTTP GET inside `fetch` observes.  `client_error` is an
`aiohttp.ClientError`, `other_error` any other exception. -/
inductive HttpOutcome where
  | response (status : Nat) (content_type : String) (body : String)
  | timeout
  | client_error (msg : String)
  | other_error (msg : String)
deriving DecidableEq, Repr

/-- Result of a fetch operation (`FetchResult` in `fetching/fetcher.py`,
minus the wall-clock `fetched_at`). -/
structure FetchResult where
  status : FetchStatus
  content : Option String := none
  title : Option String := none
  error : Option String := none
  content_type : Option String := none
deriving DecidableEq, Repr

/-- `RateLimitedFetcher.SKIP_EXTENSIONS`. -/
def SKIP_EXTENSIONS : List String :=
  [".jpg", ".jpeg", ".png", ".gif", ".webp", ".mp4", ".mp3", ".wav"]

/-- `RateLimitedFetcher.should_skip`: the lower-cased URL path ends in a
known media extension. -/
def should_skip (url : String) : Bool :=
  SKIP_EXTENSIONS.any fun ext =>
    ends_with_list (lower_str (url_path url)).data ext.data

/-- `RateLimitedFetcher.is_pdf`: the lower-cased URL path ends in `.pdf`. -/
def is_pdf (url : String) : Bool :=
  ends_with_list (lower_str (url_path url)).data ".pdf".data

/-- The `<title[^>]*>([^<]+)</title>` search of
`RateLimitedFetcher._extract_title`, tried at one position: the literal
`<title` (case-insensitively), any characters other than `>`, a `>`, then
a non-empty group of characters other than `<`, then the literal
`</title>` (case-insensitively).  Returns the group. -/
def try_title_at (l : List Char) : Option (List Char) :=
  if starts_with_list (l.map Char.toLower) "<title".data then
    let r := l.drop 6
    let r1 := (r.dropWhile (fun c => c != '>')).drop 1
    let grp := r1.takeWhile (fun c => c != '<')
    let r2 := r1.dropWhile (fun c => c != '<')
    if grp.isEmpty then none
    else if starts_with_list (r2.map Char.toLower) "</title>".data then
      some grp
    else none
  else none

/-- Leftmost search for the title pattern. -/
def title_search : List Char → Option (List Char)
  | [] => none
  | c :: rest =>
    match try_title_at (c :: rest) with
    | some g => some g
    | none => title_search rest

/-- `RateLimitedFetcher._extract_title` (HTML entity unescaping is done by
the standard library `html.unescape`; on titles without entities it is the
identity, which is how it is modelled). -/
def extract_title (html_content : String) : Option String :=
  (title_search html_content.data).map fun g => String.mk (py_strip g)

/-- `RateLimitedFetcher.fetch` with the given `max_content_length`
(default `1_000_000` in the source): skip rules first (no network), then
classify the response.  Returns exactly one `FetchResult` on every path. -/
def fetch (max_content_length : Nat) (url : String) (o : HttpOutcome) :
    FetchResult :=
  if should_skip url then
    { status := .skipped, error := some "Non-HTML content type (media file)" }
  else if is_pdf url then
    { status := .skipped
      error := some "PDF - use pdf_extractor"
      content_type := some "application/pdf" }
  else
    match o with
    | .response status content_type body =>
      if status != 200 then
        { status := .failed, error := some ("HTTP " ++ toString status) }
      else if !contains_sub_list (lower_str content_type).data "text/html".data then
        { status := .skipped
          error := some ("Non-HTML content: " ++ content_type)
          content_type := some content_type }
      else
        let content :=
          if max_content_length < body.length then body.take max_content_length
          else body
        { status := .success
          content := some content
          title := extract_title content
          content_type := some content_type }
    | .timeout => { status := .timeout, error := some "Request timed out" }
    | .client_error e => { status := .failed, error := some e }
    | .other_error e =>
      { status := .failed, error := some ("Unexpected: " ++ e) }

/-! ## The per-domain rate limiter (fetching/fetcher.py)

`RateLimitedFetcher._rate_limit` runs under a single `asyncio.Lock`, so
one check-and-update is an atomic unit; time is modelled by an explicit
rational clock passed in as `now`, and `asyncio.sleep(w)` by advancing
the clock by exactly `w` (a real sleep can only be longer, which only
increases the gap the claim bounds from below).  The returned clock value
is both the moment the GET is issued and the value recorded in
`_domain_last_request`, exactly as in the source, where the dictionary is
updated immediately after the sleep and before the request. -/

/-- The mutable state of the limiter: `_domain_last_request`, a map from
host to the clock value of its last request (`dict.get(domain, 0)` reads a
missing host as `0`). -/
structure LimiterState where
  domain_last_request : List (String × Rat) := []
deriving DecidableEq, Repr

/-- `self._domain_last_request.get(domain, 0)`. -/
def last_request (st : LimiterState) (domain : String) : Rat :=
  match st.domain_last_request.find? (fun p => p.1 == domain) with
  | some p => p.2
  | none => 0

/-- `RateLimitedFetcher._rate_limit`: compute the wait relative to the
host's last recorded time, sleep it off when positive, and record the new
request time.  Returns the request start time and the updated state. -/
def rate_limit (min_interval : Rat) (st : LimiterState) (domain : String)
    (now : Rat) : Rat × LimiterState :=
  let last := last_request st domain
  let wait_time := min_interval - (now - last)
  let start := if 0 < wait_time then now + wait_time else now
  (start,
    { domain_last_request :=
        (domain, start) ::
          st.domain_last_request.filter (fun p => p.1 != domain) })

/-! ## The HTML content extractor (fetching/content.py)

`ContentExtractor.extract` operates on the tree BeautifulSoup builds from
the markup; the external HTML parser is modelled by taking that tree — a
forest of element/text nodes, each element carrying its tag name and its
`class` attribute — as the input.  The forest is its own inductive (a list
of nodes spelled out as `nil`/`cons`) so that the tree walks below are
mutual structural recursions; `forest` builds one from a plain list.  The
`class` attribute is modelled as the space-joined class string; for the
patterns in play (`content`, `article`, `post`, none containing a space) a
regex hit on one class of the multi-valued attribute and a substring hit
on the joined string coincide. -/

mutual
/-- A node of the parsed HTML tree: a text node, or an element with tag
name, `class` attribute and children. -/
inductive Node where
  | text (s : String)
  | elem (tag : String) (class_attr : String) (children : NodeForest)

/-- A sequence of sibling nodes. -/
inductive NodeForest where
  | nil
  | cons (n : Node) (rest : NodeForest)
end

/-- Build a forest from a list of nodes. -/
def forest : List Node → NodeForest
  | [] => .nil
  | n :: rest => .cons n (forest rest)

/-- `ContentExtractor.REMOVE_TAGS`. -/
def REMOVE_TAGS : List String :=
  ["script", "style", "nav", "header", "footer", "aside", "form", "noscript"]

mutual
/-- `element.decompose()` on one node: the whole subtree of an element
whose tag is in `REMOVE_TAGS` disappears. -/
def remove_node (n : Node) : Option Node :=
  match n with
  | .text s => some (.text s)
  | .elem t c ch =>
    if t ∈ REMOVE_TAGS then none else some (.elem t c (remove_forest ch))

/-- `element.decompose()` applied throughout a forest. -/
def remove_forest (f : NodeForest) : NodeForest :=
  match f with
  | .nil => .nil
  | .cons n rest =>
    match remove_node n with
    | some m => .cons m (remove_forest rest)
    | none => remove_forest rest
end

mutual
/-- The text bits below one node, in document order, each stripped (the
per-bit treatment of `get_text(separator=" ", strip=True)`). -/
def node_texts (n : Node) : List String :=
  match n with
  | .text s => [String.mk (py_strip s.data)]
  | .elem _ _ ch => forest_texts ch

/-- The text bits of a forest in document order. -/
def forest_texts (f : NodeForest) : List String :=
  match f with
  | .nil => []
  | .cons n rest => node_texts n ++ forest_texts rest
end

/-- `candidate.get_text(separator=" ", strip=True)`: strip each text bit,
drop the ones that are entirely whitespace, join with single spaces. -/
def get_text (n : Node) : String :=
  String.intercalate " " ((node_texts n).filter (fun s => s != ""))

/-- `re.sub(r"\s+", " ", raw)`: collapse each whitespace run to one
space. -/
def collapse_ws : List Char → List Char
  | [] => []
  | [c] => if is_py_space c then [' '] else [c]
  | c1 :: c2 :: rest =>
    if is_py_space c1 && is_py_space c2 then collapse_ws (c2 :: rest)
    else (if is_py_space c1 then ' ' else c1) :: collapse_ws (c2 :: rest)

/-- Whitespace normalization of a candidate's raw text. -/
def normalize_ws (s : String) : String :=
  String.mk (collapse_ws s.data)

mutual
/-- `soup.find(tag)` below one node: the node itself, else the first hit
among its children (depth-first, pre-order). -/
def node_find (t : String) (n : Node) : Option Node :=
  match n with
  | .text _ => none
  | .elem tg c ch =>
    if tg == t then some (.elem tg c ch) else forest_find t ch

/-- `soup.find(tag)` over a forest: first hit in document order. -/
def forest_find (t : String) (f : NodeForest) : Option Node :=
  match f with
  | .nil => none
  | .cons n rest =>
    match node_find t n with
    | some m => some m
    | none => forest_find t rest
end

/-- The `re.compile(r"content|article|post", re.I)` class filter. -/
def class_matches (class_attr : String) : Bool :=
  let l := (lower_str class_attr).data
  contains_sub_list l "content".data || contains_sub_list l "article".data ||
    contains_sub_list l "post".data

mutual
/-- `soup.find_all("div", class_=re.compile(r"content|article|post", re.I))`
below one node: every matching `div` in document order. -/
def node_class_divs (n : Node) : List Node :=
  match n with
  | .text _ => []
  | .elem tg c ch =>
    (if tg == "div" && class_matches c then [Node.elem tg c ch] else []) ++
      forest_class_divs ch

/-- The matching `div` elements of a forest in document order. -/
def forest_class_divs (f : NodeForest) : List Node :=
  match f with
  | .nil => []
  | .cons n rest => node_class_divs n ++ forest_class_divs rest
end

/-- `MIN_CONTENT_LENGTH` in `fetching/content.py`. -/
def MIN_CONTENT_LENGTH : Nat := 50

/-- The candidate loop of `ContentExtractor.extract`: skip absent
candidates and candidates with empty raw text, accept the first whose
normalized text reaches `MIN_CONTENT_LENGTH`, else fall through to `""`. -/
def first_good_text : List (Option Node) → String
  | [] => ""
  | none :: rest => first_good_text rest
  | some n :: rest =>
    let raw := get_text n
    if raw != "" && MIN_CONTENT_LENGTH ≤ (normalize_ws raw).length then
      normalize_ws raw
    else first_good_text rest

/-- `ContentExtractor.extract` on the parsed document forest: remove the
unwanted elements, build the candidate list (first `<article>`, first
`<main>`, every matching `div`, first `<body>`), take the first good
candidate text, and truncate to `max_length` as the last step. -/
def extract (doc : NodeForest) (max_length : Nat) : String :=
  let cleaned := remove_forest doc
  let candidates : List (Option Node) :=
    [forest_find "article" cleaned, forest_find "main" cleaned] ++
      (forest_class_divs cleaned).map some ++ [forest_find "body" cleaned]
  let text := first_good_text candidates
  if text == "" then "" else text.take max_length

mutual
/-- Every element (any tag) below one node whose class attribute matches
the content/article/post pattern, in document order — the candidate family
the spec sentence for claim C6 describes ("every element whose class
attribute case-insensitively contains ...").  -/
def node_class_elems (n : Node) : List Node :=
  match n with
  | .text _ => []
  | .elem tg c ch =>
    (if class_matches c then [Node.elem tg c ch] else []) ++
      forest_class_elems ch

/-- The matching elements (any tag) of a forest in document order. -/
def forest_class_elems (f : NodeForest) : List Node :=
  match f with
  | .nil => []
  | .cons n rest => node_class_elems n ++ forest_class_elems rest
end

/-- Modelled from the spec: the claim-C6 description of
`ContentExtractor.extract`, word for word — candidates in the priority
order `<article>`, `<main>`, every ELEMENT with a matching class, `<body>`;
the result is the normalized text of the first candidate reaching
`MIN_CONTENT_LENGTH`, the empty string when none does, truncated to
`max_length` as the final step. -/
def extract_spec_c6 (doc : NodeForest) (max_length : Nat) : String :=
  let cleaned := remove_forest doc
  let candidates : List Node :=
    (forest_find "article" cleaned).toList ++
      (forest_find "main" cleaned).toList ++ forest_class_elems cleaned ++
      (forest_find "body" cleaned).toList
  let texts := candidates.map fun n => normalize_ws (get_text n)
  match texts.find? (fun t => MIN_CONTENT_LENGTH ≤ t.length) with
  | some t => t.take max_length
  | none => ""

/-- The claim-C6 description amended no more than its counterexample
forces: identical to `extract_spec_c6` except that only `div` elements
with a matching class are candidates, as in the source. -/
def extract_amended_c6 (doc : NodeForest) (max_length : Nat) : String :=
  let cleaned := remove_forest doc
  let candidates : List Node :=
    (forest_find "article" cleaned).toList ++
      (forest_find "main" cleaned).toList ++ forest_class_divs cleaned ++
      (forest_find "body" cleaned).toList
  let texts := candidates.map fun n => normalize_ws (get_text n)
  match texts.find? (fun t => MIN_CONTENT_LENGTH ≤ t.length) with
  | some t => t.take max_length
  | none => ""
/-! ## The LLM tag-response parser (tagging/llm_tagger.py) -/

/-- The fixed tag vocabulary `AVAILABLE_TAGS`. -/
def AVAILABLE_TAGS : List (String × List String) :=
  [("programming_language",
    ["python", "rust", "typescript", "javascript", "lisp", "common-lisp",
     "clojure", "scheme", "haskell", "go", "c", "cpp", "nix", "sql", "swift",
     "java", "ruby", "elixir", "zig"]),
   ("technical_topic",
    ["ai", "llm", "compilers", "github-repo", "database", "devops", "web-dev",
     "academic-paper", "tutorial", "cli-tool", "distributed-systems",
     "security", "emulator"]),
   ("culture",
    ["tv", "movie", "fiction-book", "nonfiction-book", "music", "news",
     "politics", "podcast", "video", "gaming", "social-media"])]

/-- `CATEGORY_MAP`: category string to enum. -/
def CATEGORY_MAP (s : String) : Option TagCategory :=
  if s == "programming_language" then some .programming_language
  else if s == "technical_topic" then some .technical_topic
  else if s == "culture" then some .culture
  else none

/-- One entry of the decoded `tags` array of the model's JSON response
(`json.loads` is the standard library; its output is where the source's own
logic starts).  `confidence` is the number `float(tag_data.get("confidence",
0.5))` produced, as an exact rational. -/
structure TagEntry where
  name : String
  category : String
  confidence : Rat
deriving DecidableEq, Repr

/-- Python `str.strip()` on a `String`. -/
def py_strip_str (s : String) : String :=
  String.mk (py_strip s.data)

/-- The per-entry validation loop of `LLMTagger._parse_response`: lower-case
and strip the name and category, drop entries whose category or name is
outside the vocabulary, and clamp the confidence from above with
`min(confidence, 1.0)`. -/
def parse_response (entries : List TagEntry) : List (Tag × Rat) :=
  entries.filterMap fun e =>
    let name := py_strip_str (lower_str e.name)
    let category_str := py_strip_str (lower_str e.category)
    match (AVAILABLE_TAGS.find? (fun p => p.1 == category_str)) with
    | none => none
    | some p =>
      if name ∈ p.2 then
        (CATEGORY_MAP category_str).map fun c =>
          (⟨name, c⟩, min e.confidence 1)
      else none

/-! ## The pipeline controller (main.py)

`LinkExtractorPipeline.run` is modelled stage by stage.  A source file
enters the model as its path, its content hash (`hashlib.md5` of the
bytes, an opaque string here) and the parser's output for its text —
`MarkdownLinkParser.parse_file` is `parse_links_section` applied to the
`## Links` section, so the extraction loop is factored through that
result.  The fetcher, the PDF extractor, the content extractor as applied
to fetched bodies, the summarizer and the tagger are oracles: pure
functions standing for the awaited collaborator calls, where `none` from
the summarizer stands for the exception its `try/except` absorbs. -/

/-- A scanned daily-note file, as the extraction loop consumes it. -/
structure NoteFile where
  path : String
  file_hash : String
  links : List ExtractedLink
deriving DecidableEq, Repr

/-- What `PDFExtractor.extract` returns for a URL (status, content, title,
error), abstracted to its result fields. -/
structure StageFetchResult where
  status : FetchStatus
  content : Option String := none
  title : Option String := none
  error : Option String := none
deriving DecidableEq, Repr

/-- The external collaborators of one pipeline run. -/
structure Oracles where
  pdf_fetch : String → StageFetchResult
  html_fetch : String → FetchResult
  extract_content : String → String
  summarize : LinkRecord → Option String
  tag_link : LinkRecord → List (Tag × Rat)

/-- The body of the `for link in links` loop of `run`: insert the link and
bump the `new_links` counter unless its URL is already present. -/
def insert_new (a : Db × Nat) (link : ExtractedLink) : Db × Nat :=
  if link_exists a.1 link.url then a
  else ((insert_link a.1 link).1, a.2 + 1)

/-- The body of the `for file_path in files` loop of `run`: skip the file
when `skip_existing and not file_needs_processing(path, hash)`; otherwise
insert its new links and mark it processed. -/
def process_file (skip_existing : Bool) (acc : Db × Nat) (file : NoteFile) :
    Db × Nat :=
  if skip_existing && !file_needs_processing acc.1 file.path file.file_hash
  then acc
  else
    let inserted := file.links.foldl insert_new acc
    (mark_file_processed inserted.1 file.path file.file_hash, inserted.2)

/-- Step 1 of `run`: the extraction loop over all scanned files.  Returns
the store and the `new_links` counter. -/
def extract_step (db : Db) (files : List NoteFile) (skip_existing : Bool) :
    Db × Nat :=
  files.foldl (process_file skip_existing) (db, 0)

/-- `LinkExtractorPipeline._fetch_links`: one bounded batch of unfetched
links; PDFs go to the PDF extractor, everything else through the fetcher,
whose non-empty content is run through the content extractor. -/
def fetch_stage (db : Db) (batch_size : Nat) (o : Oracles) : Db :=
  (get_unfetched_links db batch_size).foldl
    (fun acc link =>
      if is_pdf link.url then
        let r := o.pdf_fetch link.url
        update_fetch_result acc link.id r.status r.content r.title r.error
      else
        let r := o.html_fetch link.url
        let content :=
          match r.content with
          | some s => if s == "" then none else some (o.extract_content s)
          | none => none
        update_fetch_result acc link.id r.status content r.title r.error)
    db

/-- `LinkExtractorPipeline._create_metadata_summary`: join page title,
description (when different from the page title) and link title (when not
already among the parts) with `" - "`; `None` when nothing is available.
Python truthiness makes an empty string count as absent. -/
def create_metadata_summary (link : LinkRecord) : Option String :=
  let parts : List String :=
    (match link.page_title with
     | some t => if t != "" then [t] else []
     | none => []) ++
    (match link.description with
     | some d =>
       if d != "" && link.page_title != some d then [d] else []
     | none => [])
  let parts :=
    match link.title with
    | some t => if t != "" && t ∉ parts then parts ++ [t] else parts
    | none => parts
  if parts.isEmpty then none else some (String.intercalate " - " parts)

/-- `LinkExtractorPipeline._summarize_links`: one bounded batch of
unsummarized links; links without page content get a metadata summary
(model name `"metadata"`) when one can be built, the rest go to the
summarizer, whose failure leaves the record untouched. -/
def summarize_stage (db : Db) (batch_size : Nat) (o : Oracles)
    (model_name : String) : Db :=
  (get_unsummarized_links db batch_size).foldl
    (fun acc link =>
      match link.page_content with
      | none =>
        match create_metadata_summary link with
        | some s => update_summary acc link.id s "metadata"
        | none => acc
      | some content =>
        if content == "" then
          match create_metadata_summary link with
          | some s => update_summary acc link.id s "metadata"
          | none => acc
        else
          match o.summarize link with
          | some s => update_summary acc link.id s model_name
          | none => acc)
    db

/-- `LinkExtractorPipeline._tag_links`: one bounded batch of untagged
links; every `(tag, confidence)` pair the tagger returns is stored with
source `"llm"`. -/
def tag_stage (db : Db) (batch_size : Nat) (o : Oracles) : Db :=
  (get_untagged_links db batch_size).foldl
    (fun acc link =>
      (o.tag_link link).foldl
        (fun a tc => add_tag a link.id tc.1 tc.2 "llm")
        acc)
    db

/-- `LinkExtractorPipeline.run` (with `skip_existing = True`, its only
call site): extract, then the three enrichment stages gated by their
flags.  Returns the final store and the `new_links` counter the run
logs. -/
def run (db : Db) (files : List NoteFile) (o : Oracles) (batch_size : Nat)
    (with_fetch with_summarize with_tag : Bool) (model_name : String) :
    Db × Nat :=
  let step1 := extract_step db files true
  let db2 := if with_fetch then fetch_stage step1.1 batch_size o else step1.1
  let db3 :=
    if with_summarize then summarize_stage db2 batch_size o model_name else db2
  let db4 := if with_tag then tag_stage db3 batch_size o else db3
  (db4, step1.2)

/-! ## Reachable store states

The store is mutated only through the operations above: the guarded
insert of the extraction loop, the per-stage updates, the tag operations,
the processing log, and the manual `refetch`/re-summarize resets of the
CLI.  The web layer only reads.  `DbStep` is that operation alphabet, and
`Reachable` the states a fresh store can evolve into. -/

/-- One store mutation, as performed by the pipeline or the CLI. -/
inductive DbStep : Db → Db → Prop where
  | try_insert (db : Db) (link : ExtractedLink) :
      DbStep db (try_insert_link db link)
  | fetch_result (db : Db) (id : Nat) (st : FetchStatus)
      (content page_title error : Option String) :
      DbStep db (update_fetch_result db id st content page_title error)
  | set_summary (db : Db) (id : Nat) (s m : String) :
      DbStep db (update_summary db id s m)
  | tag_add (db : Db) (id : Nat) (tg : Tag) (conf : Rat) (src : String) :
      DbStep db (add_tag db id tg conf src)
  | untag_link (db : Db) (id : Nat) : DbStep db (clear_tags_for_link db id)
  | untag_all (db : Db) : DbStep db (clear_all_tags db)
  | mark_processed (db : Db) (p h : String) :
      DbStep db (mark_file_processed db p h)
  | reset_fetch (db : Db) (id : Nat) :
      DbStep db { db with
        links := db.links.map fun r =>
          if r.id == id then
            { r with
              fetch_status := .not_fetched
              page_content := none
              page_title := none
              fetch_error := none }
          else r }
  | reset_sum (db : Db) (id : Nat) :
      DbStep db { db with
        links := db.links.map fun r =>
          if r.id == id then
            { r with summary := none, summarizer_model := none }
          else r }

/-- The store states reachable from a freshly initialized (empty) store. -/
def Reachable (db : Db) : Prop :=
  Relation.ReflTransGen DbStep {} db

/-- No two rows of `links` share a URL. -/
def UrlsUnique (db : Db) : Prop :=
  db.links.Pairwise fun a b => a.url ≠ b.url

/-! ## Theorems: the parser claims (C1, C10) -/

/-- Both alternatives of `_parse_link_content` copy the handed-down parent
URL into the produced link unchanged, and record the handed-down indent
level. -/
theorem parse_link_content_fields (content : List Char) (d : Date)
    (f : String) (level : Nat) (parent : Option String)
    (link : ExtractedLink)
    (h : parse_link_content content d f level parent = some link) :
    link.parent_url = parent ∧ link.indent_level = level := by
  unfold parse_link_content at h
  split at h
  · cases h
    exact ⟨rfl, rfl⟩
  · split at h
    · cases h
      exact ⟨rfl, rfl⟩
    · cases h

/-- The head of a `dropWhile` fails the predicate. -/
theorem head?_dropWhile_false {α : Type} (p : α → Bool) :
    ∀ (l : List α) (x : α), (l.dropWhile p).head? = some x → p x = false := by
  intro l
  induction l with
  | nil => intro x h; cases h
  | cons a t ih =>
    intro x h
    by_cases hp : p a
    · rw [List.dropWhile_cons_of_pos hp] at h
      exact ih x h
    · rw [List.dropWhile_cons_of_neg hp] at h
      cases h
      exact eq_false_of_ne_true hp

/-- The surviving top of `pop_ge` sits at an indent level strictly below
the incoming line's level. -/
theorem head?_pop_ge_lt (stack : List (Nat × String)) (level : Nat)
    (p : Nat × String) (h : (pop_ge stack level).head? = some p) :
    p.1 < level := by
  unfold pop_ge at h
  have := head?_dropWhile_false _ stack p h
  simpa using this

/-- Entries of `pop_ge` come from the original stack. -/
theorem pop_ge_subset (stack : List (Nat × String)) (level : Nat) :
    ∀ p ∈ pop_ge stack level, p ∈ stack :=
  fun _ hp => (List.dropWhile_sublist _).subset hp

/-- The example section of the spec's hierarchy-correctness property. -/
def c1_section : String :=
  "- [A](http://a.test)\n    - [B](http://b.test)\n- bare note - http://c.test"

/-- The example date and file the example links carry. -/
def c1_date : Date := ⟨2025, 3, 15⟩

/-- Link A of the example section. -/
def c1_linkA : ExtractedLink :=
  { url := "http://a.test", source_date := c1_date,
    source_file := "2025/03/2025-03-15.md", title := some "A",
    indent_level := 0, parent_url := none }

/-- Link B of the example section. -/
def c1_linkB : ExtractedLink :=
  { url := "http://b.test", source_date := c1_date,
    source_file := "2025/03/2025-03-15.md", title := some "B",
    indent_level := 1, parent_url := some "http://a.test" }

/-- Link C of the example section. -/
def c1_linkC : ExtractedLink :=
  { url := "http://c.test", source_date := c1_date,
    source_file := "2025/03/2025-03-15.md", description := some "bare note",
    title := none, indent_level := 0, parent_url := none }

/-- Claim C1: the section parser processes bullet lines with a stack of
`(indent_level, url)` pairs — entries at a level `≥` the line's level are
popped, the new top (if any) becomes the line's `parent_url`, and a
successfully parsed line is pushed with its own URL — and on the spec's
example section it yields exactly the three links A, B, C in document
order with parent URLs `none`, `http://a.test`, `none` and indent levels
0, 1, 0. -/
theorem c1_stack_parsing_and_example :
    (∀ (d : Date) (f : String) (stack : List (Nat × String))
        (line ws g2 : List Char),
        match_list_item line = some (ws, g2) →
        ∀ link,
          parse_link_content (py_strip g2) d f (indent_level_of ws)
              ((pop_ge stack (indent_level_of ws)).head?.map Prod.snd) =
            some link →
          parse_step d f stack line =
              (some link,
                (indent_level_of ws, link.url) ::
                  pop_ge stack (indent_level_of ws)) ∧
            link.parent_url =
              (pop_ge stack (indent_level_of ws)).head?.map Prod.snd) ∧
    parse_links_section c1_section c1_date "2025/03/2025-03-15.md" =
      [c1_linkA, c1_linkB, c1_linkC] := by
  constructor
  · intro d f stack line ws g2 hmatch link hparse
    have hfields :=
      parse_link_content_fields _ _ _ _ _ _ hparse
    refine ⟨?_, hfields.1⟩
    unfold parse_step
    rw [hmatch]
    simp only [hparse]
  · decide

/-- Witness for C1: the general stack step applied to the concrete second
line of the example, with the stack holding link A. -/
theorem c1_stack_parsing_witness :
    parse_step c1_date "f.md" [(0, "http://a.test")]
        "    - [B](http://b.test)".data =
      (some { url := "http://b.test", source_date := c1_date,
              source_file := "f.md", title := some "B", indent_level := 1,
              parent_url := some "http://a.test" },
        [(1, "http://b.test"), (0, "http://a.test")]) := by
  have h :=
    (c1_stack_parsing_and_example.1 c1_date "f.md" [(0, "http://a.test")]
      "    - [B](http://b.test)".data "    ".data "[B](http://b.test)".data
      (by decide)
      { url := "http://b.test", source_date := c1_date, source_file := "f.md",
        title := some "B", indent_level := 1,
        parent_url := some "http://a.test" }
      (by decide))
  exact h.1

/-- Case analysis of one parser-loop step: a non-bullet line leaves the
stack alone and emits nothing; a bullet line pops to its level and either
emits nothing or emits one link — carrying the popped stack's top as its
parent and its own level — and pushes itself. -/
theorem parse_step_cases (d : Date) (f : String) (stack : List (Nat × String))
    (line : List Char) :
    parse_step d f stack line = (none, stack) ∨
    (∃ level, parse_step d f stack line = (none, pop_ge stack level)) ∨
    (∃ level link,
        parse_step d f stack line =
            (some link, (level, link.url) :: pop_ge stack level) ∧
          link.indent_level = level ∧
          link.parent_url = (pop_ge stack level).head?.map Prod.snd) := by
  unfold parse_step
  cases hm : match_list_item line with
  | none => exact Or.inl rfl
  | some wg =>
    obtain ⟨ws, g2⟩ := wg
    cases hp : parse_link_content (py_strip g2) d f (indent_level_of ws)
        ((pop_ge stack (indent_level_of ws)).head?.map Prod.snd) with
    | none =>
      refine Or.inr (Or.inl ⟨indent_level_of ws, ?_⟩)
      simp only [hp]
    | some link =>
      refine Or.inr (Or.inr ⟨indent_level_of ws, link, ?_, ?_, ?_⟩)
      · simp only [hp]
      · exact (parse_link_content_fields _ _ _ _ _ _ hp).2
      · exact (parse_link_content_fields _ _ _ _ _ _ hp).1

/-- A list's `head?` value is a member. -/
theorem mem_of_head?_some {α : Type} {l : List α} {x : α}
    (h : l.head? = some x) : x ∈ l := by
  cases l with
  | nil => cases h
  | cons a t =>
    cases h
    exact List.mem_cons_self _ _

/-- Invariant proof for the parser loop: if every stack entry is witnessed
by an already-emitted link (in `pre`) with that URL and that indent level,
then in the forthcoming output every link with a parent is preceded — in
`pre` or earlier in the output — by a link with the parent's URL and a
strictly smaller indent level. -/
theorem parse_loop_hier (d : Date) (f : String) :
    ∀ (lines : List (List Char)) (stack : List (Nat × String))
      (pre : List ExtractedLink),
      (∀ p ∈ stack, ∃ y ∈ pre, y.url = p.2 ∧ y.indent_level = p.1) →
      ∀ a x b, parse_loop d f lines stack = a ++ x :: b →
        ∀ u, x.parent_url = some u →
          ∃ y ∈ pre ++ a, y.url = u ∧ y.indent_level < x.indent_level := by
  intro lines
  induction lines with
  | nil =>
    intro stack pre _ a x b h
    simp [parse_loop] at h
  | cons line rest ih =>
    intro stack pre hwit a x b h u hx
    rcases parse_step_cases d f stack line with hstep | ⟨level, hstep⟩ |
        ⟨level, link, hstep, hlevel, hparent⟩
    · rw [parse_loop, hstep] at h
      exact ih stack pre hwit a x b h u hx
    · rw [parse_loop, hstep] at h
      refine ih (pop_ge stack level) pre ?_ a x b h u hx
      intro p hp
      exact hwit p (pop_ge_subset stack level p hp)
    · rw [parse_loop, hstep] at h
      have hwit' :
          ∀ p ∈ (level, link.url) :: pop_ge stack level,
            ∃ y ∈ pre ++ [link], y.url = p.2 ∧ y.indent_level = p.1 := by
        intro p hp
        rcases List.mem_cons.mp hp with hp | hp
        · subst hp
          exact ⟨link, List.mem_append_right _ (List.mem_singleton.mpr rfl),
            rfl, hlevel⟩
        · obtain ⟨y, hy, hy1, hy2⟩ :=
            hwit p (pop_ge_subset stack level p hp)
          exact ⟨y, List.mem_append_left _ hy, hy1, hy2⟩
      have H := ih ((level, link.url) :: pop_ge stack level) (pre ++ [link])
        hwit'
      cases a with
      | nil =>
        simp only [List.nil_append] at h
        have hxl : x = link := by
          have := h.symm
          exact (List.cons_eq_cons.mp this).1
        subst hxl
        rw [hx] at hparent
        obtain ⟨p, hp1, hp2⟩ := Option.map_eq_some'.mp hparent.symm
        obtain ⟨y, hy, hyu, hyl⟩ :=
          hwit p (pop_ge_subset stack level p (mem_of_head?_some hp1))
        refine ⟨y, by simpa using hy, by rw [hyu, hp2], ?_⟩
        rw [hyl, hlevel]
        exact head?_pop_ge_lt stack level p hp1
      | cons a0 a2 =>
        have hcons := List.cons_eq_cons.mp h
        obtain ⟨ha0, hrest⟩ := hcons
        have := H a2 x b hrest u hx
        obtain ⟨y, hy, hyu, hyl⟩ := this
        refine ⟨y, ?_, hyu, hyl⟩
        rw [List.append_assoc] at hy
        simpa [ha0] using hy

/-- Claim C10: every parsed section is hierarchy-well-formed — whenever a
returned link carries a `parent_url`, some earlier link of the returned
sequence has that URL and a strictly smaller indent level. -/
theorem c10_hierarchy_wellformed (sec : String) (d : Date) (f : String) :
    ∀ a x b, parse_links_section sec d f = a ++ x :: b →
      ∀ u, x.parent_url = some u →
        ∃ y ∈ a, y.url = u ∧ y.indent_level < x.indent_level := by
  intro a x b h u hx
  have := parse_loop_hier d f (split_lines sec.data) [] [] (by simp)
    a x b h u hx
  simpa using this

/-- Witness for C10: in the parsed example section, link B's parent URL is
answered by link A, which appears earlier and one level higher. -/
theorem c10_hierarchy_witness :
    ∃ y ∈ [c1_linkA], y.url = "http://a.test" ∧
      y.indent_level < c1_linkB.indent_level :=
  c10_hierarchy_wellformed c1_section c1_date "2025/03/2025-03-15.md"
    [c1_linkA] c1_linkB [c1_linkC] (by decide) "http://a.test" (by decide)

/-! ## Theorems: store uniqueness (C3) -/

/-- Mapping a URL-preserving update over the rows preserves URL
uniqueness. -/
theorem pairwise_urls_map (l : List LinkRecord) (f : LinkRecord → LinkRecord)
    (hf : ∀ r, (f r).url = r.url)
    (h : l.Pairwise fun a b => a.url ≠ b.url) :
    (l.map f).Pairwise fun a b => a.url ≠ b.url := by
  rw [List.pairwise_map]
  refine h.imp ?_
  intro a b hab
  rw [hf, hf]
  exact hab

/-- `ensure_tag` never touches the `links` table. -/
theorem ensure_tag_links (db : Db) (t : Tag) :
    (ensure_tag db t).links = db.links := by
  unfold ensure_tag
  split <;> rfl

/-- `add_tag` never touches the `links` table. -/
theorem add_tag_links (db : Db) (id : Nat) (t : Tag) (c : Rat) (s : String) :
    (add_tag db id t c s).links = db.links := by
  unfold add_tag
  dsimp only
  split <;> simp [ensure_tag_links]

/-- Claim C3: every reachable store state has pairwise-distinct link URLs,
and the pipeline's insert attempt on an already-present URL is a no-op —
the store is returned unchanged. -/
theorem c3_url_unique (db : Db) :
    (Reachable db → UrlsUnique db) ∧
    ∀ link, link_exists db link.url = true → try_insert_link db link = db := by
  constructor
  · intro h
    induction h with
    | refl => exact List.Pairwise.nil
    | @tail b c hab step ih =>
      cases step with
      | try_insert link =>
        unfold try_insert_link
        by_cases hex : link_exists b link.url
        · simpa [hex] using ih
        · simp only [hex, Bool.false_eq_true, if_false]
          unfold UrlsUnique at ih ⊢
          unfold insert_link
          simp only [List.pairwise_append, List.pairwise_cons,
            List.not_mem_nil, false_implies, implies_true,
            List.Pairwise.nil, List.mem_singleton, true_and]
          refine ⟨ih, ?_⟩
          intro a ha y hy
          subst hy
          simp only [link_exists, List.any_eq_true, not_exists,
            Bool.not_eq_true] at hex
          intro hu
          exact hex a ⟨ha, by simpa using hu⟩
      | fetch_result id st content page_title error =>
        exact pairwise_urls_map _ _ (by intro r; split <;> rfl) ih
      | set_summary id s m =>
        exact pairwise_urls_map _ _ (by intro r; split <;> rfl) ih
      | tag_add id tg conf src =>
        unfold UrlsUnique
        rw [add_tag_links]
        exact ih
      | untag_link id => exact ih
      | untag_all => exact ih
      | mark_processed p hh => exact ih
      | reset_fetch id =>
        exact pairwise_urls_map _ _ (by intro r; split <;> rfl) ih
      | reset_sum id =>
        exact pairwise_urls_map _ _ (by intro r; split <;> rfl) ih
  · intro link h
    unfold try_insert_link
    simp [h]

/-- An example link for exercising the guarded insert. -/
def c3_link : ExtractedLink :=
  { url := "http://a.test/x", source_date := ⟨2025, 3, 15⟩,
    source_file := "2025/03/2025-03-15.md" }

/-- The store after inserting `c3_link` into a fresh store. -/
def c3_db : Db := try_insert_link {} c3_link

/-- Witness for C3: the one-insert store is reachable and URL-unique, and
re-attempting the same insert leaves it unchanged. -/
theorem c3_url_unique_witness :
    UrlsUnique c3_db ∧ try_insert_link c3_db c3_link = c3_db :=
  ⟨(c3_url_unique c3_db).1
      (Relation.ReflTransGen.single (DbStep.try_insert {} c3_link)),
    (c3_url_unique c3_db).2 c3_link (by decide)⟩

/-! ## Theorems: pipeline idempotence (C2) -/

/-- A batched getter returns nothing when its `WHERE` predicate holds for
no row. -/
theorem query_empty (l : List LinkRecord) (p : LinkRecord → Bool) (n : Nat)
    (h : ∀ r ∈ l, p r = false) :
    (sort_by_date_desc (l.filter p)).take n = [] := by
  have hnil : l.filter p = [] := by
    rw [List.filter_eq_nil_iff]
    intro a ha
    simp [h a ha]
  rw [hnil]
  simp [sort_by_date_desc, List.insertionSort]

/-- The extraction loop is the identity on the store and inserts nothing
when every scanned file's recorded hash matches its current one. -/
theorem foldl_process_file_skip (files : List NoteFile) (db : Db) (n : Nat)
    (h : ∀ f ∈ files, file_needs_processing db f.path f.file_hash = false) :
    files.foldl (process_file true) (db, n) = (db, n) := by
  induction files with
  | nil => rfl
  | cons f fs ih =>
    have hf := h f (List.mem_cons_self _ _)
    have hstep : process_file true (db, n) f = (db, n) := by
      unfold process_file
      simp [hf]
    rw [List.foldl_cons, hstep]
    exact ih fun g hg => h g (List.mem_cons_of_mem _ hg)

/-- Claim C2: a second full pipeline run over a source tree whose files all
hash-match the processing log, on a store where every record is fetched,
summarized and tagged, inserts zero new records and returns the store
completely unchanged — all fetch fields, summary fields and tag
associations included. -/
theorem c2_second_run_identity (db : Db) (files : List NoteFile)
    (o : Oracles) (batch_size : Nat) (model_name : String)
    (hfiles : ∀ f ∈ files, file_needs_processing db f.path f.file_hash = false)
    (hfetched : ∀ r ∈ db.links, r.fetch_status ≠ .not_fetched)
    (hsummarized : ∀ r ∈ db.links, r.summary ≠ none)
    (htagged : ∀ r ∈ db.links,
      db.link_tags.any (fun lt => lt.link_id == r.id) = true) :
    run db files o batch_size true true true model_name = (db, 0) := by
  have hextract : extract_step db files true = (db, 0) := by
    unfold extract_step
    exact foldl_process_file_skip files db 0 hfiles
  have hfetch : fetch_stage db batch_size o = db := by
    have hq : get_unfetched_links db batch_size = [] := by
      unfold get_unfetched_links
      exact query_empty _ _ _ fun r hr => by simpa using hfetched r hr
    unfold fetch_stage
    rw [hq]
    rfl
  have hsum : summarize_stage db batch_size o model_name = db := by
    have hq : get_unsummarized_links db batch_size = [] := by
      unfold get_unsummarized_links
      refine query_empty _ _ _ fun r hr => ?_
      unfold summarize_eligible
      simp [hsummarized r hr]
    unfold summarize_stage
    rw [hq]
    rfl
  have htag : tag_stage db batch_size o = db := by
    have hq : get_untagged_links db batch_size = [] := by
      unfold get_untagged_links
      exact query_empty _ _ _ fun r hr => by simp [htagged r hr]
    unfold tag_stage
    rw [hq]
    rfl
  unfold run
  rw [hextract]
  simp only [if_true]
  rw [hfetch, hsum, htag]

/-- A fully processed example record. -/
def c2_rec : LinkRecord :=
  { id := 1, url := "http://a.test/x", domain := "a.test",
    source_date := ⟨2025, 3, 15⟩, source_file := "2025/03/2025-03-15.md",
    page_title := some "A page", page_content := some "Some page content",
    fetch_status := .success, summary := some "A summary",
    summarizer_model := some "m" }

/-- An example store where the one record has passed every stage and the
one source file is logged under its current hash. -/
def c2_db : Db :=
  { links := [c2_rec], next_link_id := 2,
    tags := [⟨1, "python", "programming_language"⟩], next_tag_id := 2,
    link_tags := [⟨1, 1, 1, "llm"⟩],
    processing_log := [⟨"2025/03/2025-03-15.md", "d41d8c"⟩] }

/-- The unchanged source tree of the second run. -/
def c2_files : List NoteFile :=
  [⟨"2025/03/2025-03-15.md", "d41d8c", [c3_link]⟩]

/-- Oracles whose answers do not matter for the witness (no stage selects
any record). -/
def c2_oracles : Oracles :=
  { pdf_fetch := fun _ => { status := .failed }
    html_fetch := fun _ => { status := .failed }
    extract_content := fun s => s
    summarize := fun _ => none
    tag_link := fun _ => [] }

/-- Witness for C2: the second run over the example store and tree returns
the store unchanged and inserts zero links. -/
theorem c2_second_run_identity_witness :
    run c2_db c2_files c2_oracles 50 true true true "m" = (c2_db, 0) :=
  c2_second_run_identity c2_db c2_files c2_oracles 50 "m" (by decide)
    (by decide) (by decide) (by decide)

/-! ## Theorems: re-parsing is additive (C8) -/

/-- Frame property of the insert loop of `run`: the loop only ever appends
rows, every appended row's URL was absent from the incoming store, and the
other tables are untouched. -/
theorem foldl_insert_new_frame (links : List ExtractedLink) :
    ∀ a : Db × Nat,
      ∃ new,
        ((links.foldl insert_new a).1.links = a.1.links ++ new ∧
          ∀ r ∈ new, ∀ old ∈ a.1.links, old.url ≠ r.url) ∧
        (links.foldl insert_new a).1.link_tags = a.1.link_tags ∧
        (links.foldl insert_new a).1.tags = a.1.tags := by
  induction links with
  | nil =>
    intro a
    exact ⟨[], ⟨(List.append_nil _).symm, by simp⟩, rfl, rfl⟩
  | cons link rest ih =>
    intro a
    rw [List.foldl_cons]
    by_cases hex : link_exists a.1 link.url
    · have hid : insert_new a link = a := by
        unfold insert_new
        simp [hex]
      rw [hid]
      exact ih a
    · have hin : insert_new a link = ((insert_link a.1 link).1, a.2 + 1) := by
        unfold insert_new
        simp [hex]
      rw [hin]
      obtain ⟨new, ⟨hl, hnew⟩, htags, hcat⟩ :=
        ih ((insert_link a.1 link).1, a.2 + 1)
      refine ⟨new_record a.1 link :: new, ⟨?_, ?_⟩, htags, hcat⟩
      · rw [hl]
        show (a.1.links ++ [new_record a.1 link]) ++ new = _
        rw [List.append_assoc]
        rfl
      · intro r hr old hold
        rcases List.mem_cons.mp hr with hr | hr
        · subst hr
          simp only [link_exists, List.any_eq_true, not_exists,
            Bool.not_eq_true] at hex
          intro hu
          exact hex old ⟨hold, by simpa using hu⟩
        · refine hnew r hr old ?_
          show old ∈ a.1.links ++ [new_record a.1 link]
          exact List.mem_append_left _ hold

/-- Claim C8: processing one (possibly changed) source file only appends
records whose URL was not already present; every pre-existing record keeps
all of its fields verbatim, and the tag tables are untouched — re-parsing
is additive, never corrective. -/
theorem c8_reparse_additive (db : Db) (file : NoteFile) :
    ∃ new,
      ((extract_step db [file] true).1.links = db.links ++ new ∧
        ∀ r ∈ new, ∀ old ∈ db.links, old.url ≠ r.url) ∧
      (extract_step db [file] true).1.link_tags = db.link_tags ∧
      (extract_step db [file] true).1.tags = db.tags := by
  unfold extract_step
  rw [List.foldl_cons, List.foldl_nil]
  unfold process_file
  by_cases hneed : file_needs_processing db file.path file.file_hash
  · rw [if_neg (by simp [hneed])]
    obtain ⟨new, ⟨hl, hnew⟩, htags, hcat⟩ :=
      foldl_insert_new_frame file.links (db, 0)
    exact ⟨new, ⟨hl, hnew⟩, htags, hcat⟩
  · rw [if_pos (by simp [hneed])]
    exact ⟨[], ⟨(List.append_nil _).symm, by simp⟩, rfl, rfl⟩

/-- A changed source file carrying one link, for exercising C8. -/
def c8_file : NoteFile :=
  ⟨"2025/03/2025-03-15.md", "9e107d",
    [{ url := "http://a.test/new", source_date := ⟨2025, 3, 15⟩,
       source_file := "2025/03/2025-03-15.md" }]⟩

/-- Witness for C8: processing `c8_file` against the empty store only
appends records with fresh URLs and leaves the tag tables untouched. -/
theorem c8_reparse_additive_witness :
    ∃ new,
      ((extract_step {} [c8_file] true).1.links = ({} : Db).links ++ new ∧
        ∀ r ∈ new, ∀ old ∈ ({} : Db).links, old.url ≠ r.url) ∧
      (extract_step {} [c8_file] true).1.link_tags = ({} : Db).link_tags ∧
      (extract_step {} [c8_file] true).1.tags = ({} : Db).tags :=
  c8_reparse_additive {} c8_file

/-! ## Theorems: summarize-stage gating (C5) -/

/-- Everything a batched getter returns is a table row satisfying its
`WHERE` predicate, whatever the limit. -/
theorem mem_query (l : List LinkRecord) (p : LinkRecord → Bool) (n : Nat)
    (r : LinkRecord) (h : r ∈ (sort_by_date_desc (l.filter p)).take n) :
    r ∈ l ∧ p r = true := by
  have h1 : r ∈ sort_by_date_desc (l.filter p) :=
    (List.take_sublist _ _).subset h
  have h2 : r ∈ l.filter p := by
    unfold sort_by_date_desc at h1
    exact (List.perm_insertionSort _ _).mem_iff.mp h1
  exact ⟨(List.mem_filter.mp h2).1, (List.mem_filter.mp h2).2⟩

/-- Claim C5: for every store state and every limit, the summarize-stage
query returns only records whose fetch status is not `not_fetched` and
whose summary is null — so a `not_fetched` record is never selected —
while any record with status `skipped`, `failed` or `timeout` and no
summary satisfies the query's predicate and is eligible for the stage. -/
theorem c5_summarize_gating (db : Db) (limit : Nat) :
    (∀ r ∈ get_unsummarized_links db limit,
        r.fetch_status ≠ .not_fetched ∧ r.summary = none) ∧
    ∀ r : LinkRecord,
      (r.fetch_status = .skipped ∨ r.fetch_status = .failed ∨
        r.fetch_status = .timeout) →
      r.summary = none → summarize_eligible r = true := by
  constructor
  · intro r hr
    have hp :=
      (mem_query db.links summarize_eligible limit r
        (by simpa [get_unsummarized_links] using hr)).2
    unfold summarize_eligible at hp
    simp only [Bool.and_eq_true, bne_iff_ne, beq_iff_eq] at hp
    exact hp
  · intro r h hs
    unfold summarize_eligible
    rcases h with h | h | h <;> simp [h, hs]

/-- A skipped, unsummarized example record. -/
def c5_rec : LinkRecord :=
  { id := 1, url := "http://a.test/x", domain := "a.test",
    source_date := ⟨2025, 3, 15⟩, source_file := "2025/03/2025-03-15.md",
    fetch_status := .skipped, fetch_error := some "Non-HTML content: x" }

/-- An example store holding the skipped record. -/
def c5_db : Db :=
  { links := [c5_rec], next_link_id := 2 }

/-- Witness for C5: the skipped record of the example store is returned by
the query and classified as eligible. -/
theorem c5_summarize_gating_witness :
    (c5_rec.fetch_status ≠ .not_fetched ∧ c5_rec.summary = none) ∧
      summarize_eligible c5_rec = true :=
  ⟨(c5_summarize_gating c5_db 10).1 c5_rec (by decide),
    (c5_summarize_gating c5_db 10).2 c5_rec (Or.inl rfl) rfl⟩

/-! ## Theorems: fetch classification (C4) -/

/-- Claim C4: `fetch` returns exactly one result on every input (it is a
total function, so nothing escapes the boundary), with a status drawn from
`{success, failed, timeout, skipped}`; a URL with a media extension is
skipped without the HTTP outcome ever being consulted; past the skip
rules, a non-200 response fails with error `HTTP <status>`, a 200 response
whose content type does not contain `text/html` is skipped, and a timeout
yields `timeout`, not `failed`. -/
theorem c4_fetch_classification (max_content_length : Nat) (url : String)
    (o : HttpOutcome) :
    ((fetch max_content_length url o).status = .success ∨
      (fetch max_content_length url o).status = .failed ∨
      (fetch max_content_length url o).status = .timeout ∨
      (fetch max_content_length url o).status = .skipped) ∧
    (should_skip url = true →
      (fetch max_content_length url o).status = .skipped ∧
        ∀ o2, fetch max_content_length url o2 = fetch max_content_length url o) ∧
    (should_skip url = false → is_pdf url = false →
      (∀ status content_type body,
          o = .response status content_type body → status ≠ 200 →
          fetch max_content_length url o =
            { status := .failed, error := some ("HTTP " ++ toString status) }) ∧
      (∀ content_type body, o = .response 200 content_type body →
          contains_sub_list (lower_str content_type).data "text/html".data =
            false →
          (fetch max_content_length url o).status = .skipped) ∧
      (o = .timeout → (fetch max_content_length url o).status = .timeout)) := by
  refine ⟨?_, ?_, ?_⟩
  · unfold fetch
    split
    · simp
    · split
      · simp
      · cases o with
        | response status content_type body =>
          dsimp only
          split
          · simp
          · split <;> simp
        | timeout => simp
        | client_error e => simp
        | other_error e => simp
  · intro hskip
    constructor
    · unfold fetch
      rw [if_pos hskip]
    · intro o2
      unfold fetch
      rw [if_pos hskip, if_pos hskip]
  · intro hskip hpdf
    refine ⟨?_, ?_, ?_⟩
    · intro status content_type body ho hne
      subst ho
      unfold fetch
      rw [if_neg (by simp [hskip]), if_neg (by simp [hpdf])]
      dsimp only
      have hb : (status != 200) = true := by simpa using hne
      simp [hb]
    · intro content_type body ho hct
      subst ho
      unfold fetch
      rw [if_neg (by simp [hskip]), if_neg (by simp [hpdf])]
      dsimp only
      simp [hct]
    · intro ho
      subst ho
      unfold fetch
      rw [if_neg (by simp [hskip]), if_neg (by simp [hpdf])]

/-- Witness for C4: a media URL is skipped whatever the outcome; on a plain
page URL a 404 yields `failed` with error `HTTP 404`, a 200 JSON response
is skipped, and a timeout yields `timeout`. -/
theorem c4_fetch_classification_witness :
    (fetch 1000000 "http://x.test/pic.JPG" .timeout).status = .skipped ∧
    fetch 1000000 "http://x.test/page" (.response 404 "text/html" "") =
      { status := .failed, error := some ("HTTP " ++ toString 404) } ∧
    (fetch 1000000 "http://x.test/page"
      (.response 200 "application/json" "x")).status = .skipped ∧
    (fetch 1000000 "http://x.test/page" .timeout).status = .timeout := by
  refine ⟨?_, ?_, ?_, ?_⟩
  · exact ((c4_fetch_classification 1000000 "http://x.test/pic.JPG"
      .timeout).2.1 (by decide)).1
  · exact ((c4_fetch_classification 1000000 "http://x.test/page"
      (.response 404 "text/html" "")).2.2 (by decide) (by decide)).1
      404 "text/html" "" rfl (by decide)
  · exact ((c4_fetch_classification 1000000 "http://x.test/page"
      (.response 200 "application/json" "x")).2.2 (by decide) (by decide)).2.1
      "application/json" "x" rfl (by decide)
  · exact ((c4_fetch_classification 1000000 "http://x.test/page"
      .timeout).2.2 (by decide) (by decide)).2.2 rfl

/-! ## Theorems: per-domain rate limiting (C7) -/

/-- Dropping the entries of one key does not change lookups of another
key. -/
theorem find?_filter_ne (l : List (String × Rat)) (d1 d2 : String)
    (h : d2 ≠ d1) :
    (l.filter (fun p => p.1 != d1)).find? (fun p => p.1 == d2) =
      l.find? (fun p => p.1 == d2) := by
  induction l with
  | nil => rfl
  | cons p t ih =>
    by_cases hp : p.1 = d1
    · rw [List.filter_cons_of_neg (by simp [hp])]
      rw [ih, List.find?_cons_of_neg _ (by simp [hp]; exact fun hcon => h hcon.symm)]
    · rw [List.filter_cons_of_pos (by simp [hp])]
      by_cases hd : p.1 = d2
      · rw [List.find?_cons_of_pos _ (by simp [hd]),
          List.find?_cons_of_pos _ (by simp [hd])]
      · rw [List.find?_cons_of_neg _ (by simp [hd]),
          List.find?_cons_of_neg _ (by simp [hd])]
        exact ih

/-- After a fetch to `d1`, looking up any other domain is as before. -/
theorem last_request_other (st : LimiterState) (min_interval : Rat)
    (d1 d2 : String) (now : Rat) (h : d2 ≠ d1) :
    last_request (rate_limit min_interval st d1 now).2 d2 =
      last_request st d2 := by
  unfold rate_limit last_request
  dsimp only
  rw [List.find?_cons_of_neg _ (by simp; exact fun hcon => h hcon.symm)]
  rw [find?_filter_ne st.domain_last_request d1 d2 h]

/-- The recorded time of a fetch to `d` becomes the new `last request`
value for `d`. -/
theorem last_request_self (st : LimiterState) (min_interval : Rat)
    (d : String) (now : Rat) :
    last_request (rate_limit min_interval st d now).2 d =
      (rate_limit min_interval st d now).1 := by
  unfold rate_limit last_request
  dsimp only
  rw [List.find?_cons_of_pos _ (by simp)]

/-- Claim C7: with the limiter configured at a minimum interval of 1.0
second, two back-to-back fetches to the same host start at least 1.0
second apart — whatever the clock reads when the second one arrives — and
a fetch to a different host computes the same start time as if the first
fetch had never happened: rate limiting is per-host. -/
theorem c7_rate_limiting (st : LimiterState) (d1 d2 : String)
    (now1 now2 : Rat) (hne : d2 ≠ d1) :
    (rate_limit 1 st d1 now1).1 + 1 ≤
        (rate_limit 1 (rate_limit 1 st d1 now1).2 d1 now2).1 ∧
      (rate_limit 1 (rate_limit 1 st d1 now1).2 d2 now2).1 =
        (rate_limit 1 st d2 now2).1 := by
  have hstart : ∀ (m : Rat) (s : LimiterState) (d : String) (now : Rat),
      (rate_limit m s d now).1 =
        if 0 < m - (now - last_request s d) then
          now + (m - (now - last_request s d))
        else now := fun _ _ _ _ => rfl
  constructor
  · rw [hstart 1 (rate_limit 1 st d1 now1).2 d1 now2,
      last_request_self st 1 d1 now1]
    set s1 := (rate_limit 1 st d1 now1).1 with hs1
    by_cases hw : 0 < 1 - (now2 - s1)
    · rw [if_pos hw]
      linarith
    · rw [if_neg hw]
      push_neg at hw
      linarith
  · rw [hstart 1 (rate_limit 1 st d1 now1).2 d2 now2, hstart 1 st d2 now2,
      last_request_other st 1 d1 d2 now1 hne]

/-- Witness for C7: from a fresh limiter, two immediate fetches to
`a.test` start at clock values 1 and 2 — one second apart — while a fetch
to `b.test` after the `a.test` fetch starts exactly when it would have
from the fresh state. -/
theorem c7_rate_limiting_witness :
    (rate_limit 1 {} "a.test" 0).1 + 1 ≤
        (rate_limit 1 (rate_limit 1 {} "a.test" 0).2 "a.test" 0).1 ∧
      (rate_limit 1 (rate_limit 1 {} "a.test" 0).2 "b.test" 0).1 =
        (rate_limit 1 {} "b.test" 0).1 :=
  c7_rate_limiting {} "a.test" "b.test" 0 0 (by decide)

/-! ## Theorems: content extraction (C6)

The claim says candidates include EVERY element with a matching class
attribute; the source's `soup.find_all("div", class_=...)` restricts the
class-based candidates to `div` elements.  A document whose matching
element is a `section` separates the two: the claim's reading returns the
section's text, the code falls through to `<body>` and returns the body's
larger text. -/

/-- A document with a rich `section class="content"` inside a body that
also holds other text, and no `article`, `main` or `div`. -/
def c6_doc : NodeForest :=
  forest
    [.elem "html" ""
      (forest
        [.elem "body" ""
          (forest
            [.text "hi",
             .elem "section" "content"
               (forest
                 [.text "This section text is certainly long enough to clear the fifty character bar."])])])]

set_option maxRecDepth 4000 in
/-- Counterexample for C6: on `c6_doc` the source's `extract` does not
return what the claim's candidate order — with `section class="content"`
tried before `<body>` — would return: the code yields the body text
prefixed with `"hi "`, the claim the bare section text. -/
theorem c6_counterexample :
    extract c6_doc 200 ≠ extract_spec_c6 c6_doc 200 := by
  decide

/-- Claim C6 as amended: `extract` tries the candidates in the fixed
priority order `<article>`, `<main>`, every DIV element whose class
attribute case-insensitively contains `content`, `article` or `post`,
then `<body>`; it returns the whitespace-normalized text of the first
candidate whose normalized length reaches 50, the empty string when no
candidate does, and truncates to the maximum length as the final step. -/
theorem c6_extract_amended (doc : NodeForest) (max_length : Nat) :
    extract doc max_length = extract_amended_c6 doc max_length := by
  unfold extract extract_amended_c6
  have hfirst : ∀ cs : List (Option Node),
      first_good_text cs =
        (((cs.filterMap id).map (fun n => normalize_ws (get_text n))).find?
            (fun t => MIN_CONTENT_LENGTH ≤ t.length)).getD "" := by
    intro cs
    induction cs with
    | nil => rfl
    | cons c rest ih =>
      cases c with
      | none =>
        have hstep : List.filterMap id (none :: rest) =
            List.filterMap id rest := rfl
        rw [hstep]
        exact ih
      | some n =>
        have hstep : List.filterMap id (some n :: rest) =
            n :: List.filterMap id rest := rfl
        rw [hstep, List.map_cons]
        by_cases h50 :
            MIN_CONTENT_LENGTH ≤ (normalize_ws (get_text n)).length
        · have hraw : get_text n ≠ "" := by
            intro hempty
            rw [hempty] at h50
            exact absurd h50 (by decide)
          rw [List.find?_cons_of_pos _ (by simpa using h50)]
          unfold first_good_text
          rw [if_pos (by simp [hraw, h50])]
          rfl
        · rw [List.find?_cons_of_neg _ (by simpa using h50)]
          unfold first_good_text
          rw [if_neg (by simp [h50])]
          exact ih
  dsimp only
  rw [hfirst]
  have hflat :
      ([forest_find "article" (remove_forest doc),
          forest_find "main" (remove_forest doc)] ++
        (forest_class_divs (remove_forest doc)).map some ++
        [forest_find "body" (remove_forest doc)]).filterMap id =
      (forest_find "article" (remove_forest doc)).toList ++
        (forest_find "main" (remove_forest doc)).toList ++
        forest_class_divs (remove_forest doc) ++
        (forest_find "body" (remove_forest doc)).toList := by
    cases forest_find "article" (remove_forest doc) <;>
      cases forest_find "main" (remove_forest doc) <;>
      cases forest_find "body" (remove_forest doc) <;>
      simp [List.filterMap_append, List.filterMap_map, Function.comp]
  rw [hflat]
  set texts :=
    ((forest_find "article" (remove_forest doc)).toList ++
        (forest_find "main" (remove_forest doc)).toList ++
        forest_class_divs (remove_forest doc) ++
        (forest_find "body" (remove_forest doc)).toList).map
      (fun n => normalize_ws (get_text n)) with hts
  cases hf : texts.find? (fun t => MIN_CONTENT_LENGTH ≤ t.length) with
  | none => rfl
  | some t =>
    have hp := List.find?_some hf
    have hlen : MIN_CONTENT_LENGTH ≤ t.length := by simpa using hp
    have hne : (t == "") = false := by
      rw [beq_eq_false_iff_ne]
      intro he
      rw [he] at hlen
      exact absurd hlen (by decide)
    simp only [Option.getD_some, hne, Bool.false_eq_true, if_false]

/-! ## Theorems: tag confidence bounds (C9)

`_parse_response` clamps each confidence with `min(confidence, 1.0)` —
only from above.  A response entry carrying a negative confidence passes
the vocabulary checks untouched and is returned (and would be stored by
`add_tag`) below zero, so the claimed lower bound fails. -/

/-- A decoded response entry with a valid tag and a negative confidence. -/
def c9_entry : TagEntry :=
  { name := "python", category := "programming_language",
    confidence := -1 }

/-- Counterexample for C9: the parsed pair for `c9_entry` carries
confidence `-1`, outside `[0, 1]` — the clamp `min(confidence, 1.0)` only
enforces the upper bound. -/
theorem c9_counterexample :
    ¬ ∀ p ∈ parse_response [c9_entry], 0 ≤ p.2 ∧ p.2 ≤ 1 := by
  intro h
  have hlist : parse_response [c9_entry] =
      [(⟨⟨"python", .programming_language⟩, -1⟩ : Tag × Rat)] := by
    decide
  have hmem :
      (⟨⟨"python", .programming_language⟩, -1⟩ : Tag × Rat) ∈
        parse_response [c9_entry] := by
    rw [hlist]
    exact List.mem_singleton.mpr rfl
  have := (h _ hmem).1
  norm_num at this

/-- Claim C9 as amended: every pair the tagger returns has confidence at
most 1 (the upper clamp), and whenever every confidence of the decoded
response is nonnegative — as the prompt instructs the model — every
returned pair's confidence lies in `[0, 1]`. -/
theorem c9_confidence_amended (entries : List TagEntry) :
    (∀ p ∈ parse_response entries, p.2 ≤ 1) ∧
    ((∀ e ∈ entries, 0 ≤ e.confidence) →
      ∀ p ∈ parse_response entries, 0 ≤ p.2 ∧ p.2 ≤ 1) := by
  have hform : ∀ p ∈ parse_response entries,
      ∃ e ∈ entries, p.2 = min e.confidence 1 := by
    intro p hp
    unfold parse_response at hp
    obtain ⟨e, he, hfe⟩ := List.mem_filterMap.mp hp
    refine ⟨e, he, ?_⟩
    dsimp only at hfe
    rcases hfind : AVAILABLE_TAGS.find?
        (fun q => q.1 == py_strip_str (lower_str e.category)) with _ | q
    · rw [hfind] at hfe
      simp at hfe
    · rw [hfind] at hfe
      dsimp only at hfe
      by_cases hname : py_strip_str (lower_str e.name) ∈ q.2
      · rw [if_pos hname] at hfe
        rcases hc : CATEGORY_MAP (py_strip_str (lower_str e.category))
          with _ | cat
        · rw [hc] at hfe
          simp at hfe
        · rw [hc] at hfe
          rw [Option.map_some'] at hfe
          have := Option.some.inj hfe
          rw [← this]
      · rw [if_neg hname] at hfe
        simp at hfe
  constructor
  · intro p hp
    obtain ⟨e, _, hpe⟩ := hform p hp
    rw [hpe]
    exact min_le_right _ _
  · intro hnn p hp
    obtain ⟨e, he, hpe⟩ := hform p hp
    rw [hpe]
    exact ⟨le_min (hnn e he) (by norm_num), min_le_right _ _⟩

/-- Witness for C9 (amended): a well-formed entry with a nonnegative
confidence yields pairs whose confidence lies in `[0, 1]`. -/
theorem c9_confidence_amended_witness :
    ∀ p ∈ parse_response
        [{ name := "python", category := "programming_language",
           confidence := 1 }], 0 ≤ p.2 ∧ p.2 ≤ 1 :=
  (c9_confidence_amended _).2 (by decide)

end NoteLinks
